import Mathlib

/-!
# Verification of the catalogBuddy row-reshaping engine

A shallow embedding of the transform core of `src/backend/app.py`
(the Shopify-style catalog reshaper) together with proofs of the
behavioural claims made by the specification.

Modelling conventions:
* A pandas `DataFrame` of all-string cells becomes `Table`: a list of
  named columns plus an explicit row count (pandas tables are
  rectangular; cell access is modelled with `List.getD _ ""` which
  agrees with `iloc` on rectangular tables).
* Python dicts keyed by strings become association lists; dict
  assignment semantics (first-wins or last-wins) are reproduced where
  the code relies on them.
* `str.strip` / `str.lower` are modelled with `strip` / `lowerStr`
  below; they agree on the ASCII data the claims concern.  All
  definitions use structural recursion so that concrete runs reduce
  inside the kernel.
* `int(float(s))` is modelled by `parseFloatTrunc`, exact decimal
  arithmetic truncated toward zero: it agrees with CPython on every
  decimal literal of fewer than 16 significant digits (no underscore
  separators, no inf/nan, which CPython would reject or that would be
  rejected by the 1..5 bounds check downstream anyway).
-/

set_option autoImplicit false

namespace CatalogBuddy

/-- A parsed all-strings table: named columns and a row count.
pandas guarantees rectangularity; cells are accessed with a default. -/
structure Table where
  cols : List (String × List String)
  nrows : Nat
deriving DecidableEq

/-- Python `str.strip()`: drop whitespace from both ends. -/
def strip (s : String) : String :=
  String.mk (((s.data.dropWhile Char.isWhitespace).reverse.dropWhile Char.isWhitespace).reverse)

/-- Python `str.lower()`: lowercase every character. -/
def lowerStr (s : String) : String :=
  String.mk (s.data.map Char.toLower)

/-- First column whose name matches exactly (case-sensitive). -/
def exactCol (name : String) : List (String × List String) → Option (String × List String)
  | [] => none
  | c :: rest => if c.1 = name then some c else exactCol name rest

/-- Last column whose lowercased name matches `lc`.  The Python code
builds `\x7bc.lower(): c for c in df.columns\x7d`, where later columns
overwrite earlier ones, so the case-insensitive fallback resolves to
the LAST case-insensitive match. -/
def lastLower (lc : String) : List (String × List String) → Option (String × List String)
  | [] => none
  | c :: rest =>
    match lastLower lc rest with
    | some r => some r
    | none => if lowerStr c.1 = lc then some c else none

/-- `get_col` of app.py, returning the resolved column name as well:
exact case-sensitive match first, then case-insensitive fallback. -/
def get_colPair (t : Table) (name : String) : Option (String × List String) :=
  match exactCol name t.cols with
  | some c => some c
  | none => lastLower (lowerStr name) t.cols

/-- `get_col` of app.py (cells only). -/
def get_col (t : Table) (name : String) : Option (List String) :=
  (get_colPair t name).map (fun c => c.2)

/-- `normalize_headers` of app.py: cells that are exactly the string
"nan" (an `astype(str)` artifact) are scrubbed to the empty string;
all other cells are kept unchanged. -/
def scrubNan (s : String) : String := if s = "nan" then "" else s

/-- `normalize_headers` of app.py applied to a table. -/
def normalize_headers (t : Table) : Table :=
  { t with cols := t.cols.map (fun c => (c.1, c.2.map scrubNan)) }

/-- Value of digit characters, most significant first. -/
def digitsToNat (l : List Char) : Nat :=
  l.foldl (fun n c => n * 10 + (c.toNat - 48)) 0

/-- Leading sign of a numeric literal: `(isNegative, rest)`. -/
def parseSign : List Char → Bool × List Char
  | '-' :: rest => (true, rest)
  | '+' :: rest => (false, rest)
  | l => (false, l)

/-- Python `int(s)` on an optionally signed decimal literal
(surrounding whitespace tolerated, as in CPython). -/
def pyParseInt (s : String) : Option Int :=
  let (neg, l) := parseSign (strip s).data
  if l ≠ [] ∧ l.all Char.isDigit then
    some (if neg then -(digitsToNat l : Int) else (digitsToNat l : Int))
  else none

/-- Split a character list at the first exponent marker `e`/`E`. -/
def splitExp : List Char → List Char × Option (List Char)
  | [] => ([], none)
  | c :: rest =>
    if c = 'e' ∨ c = 'E' then ([], some rest)
    else
      let r := splitExp rest
      (c :: r.1, r.2)

/-- Split a character list at the first decimal point. -/
def splitDot : List Char → List Char × Option (List Char)
  | [] => ([], none)
  | c :: rest =>
    if c = '.' then ([], some rest)
    else
      let r := splitDot rest
      (c :: r.1, r.2)

/-- Truncate `(-1)^neg * m * 10^(e - fracLen)` toward zero. -/
def truncDecimal (neg : Bool) (m : Nat) (fracLen : Nat) (e : Int) : Int :=
  let shift : Int := e - (fracLen : Int)
  let mag : Nat := if 0 ≤ shift then m * 10 ^ shift.toNat else m / 10 ^ ((-shift).toNat)
  if neg then -(mag : Int) else (mag : Int)

/-- Python `int(float(s))` on a decimal literal: optional sign, digits
with optional fraction, optional signed exponent; truncation toward
zero.  Returns `none` where CPython would raise (and the caller
`collect_images` would skip the row). -/
def parseFloatTrunc (s : String) : Option Int :=
  let (neg, l) := parseSign s.data
  let me := splitExp l
  let ifr := splitDot me.1
  let ip := ifr.1
  let fp := (ifr.2).getD []
  if ip.all Char.isDigit ∧ fp.all Char.isDigit ∧ (ip ≠ [] ∨ fp ≠ []) then
    match me.2 with
    | none => some (truncDecimal neg (digitsToNat (ip ++ fp)) fp.length 0)
    | some e =>
      let se := parseSign e
      if se.2 ≠ [] ∧ (se.2).all Char.isDigit then
        some (truncDecimal neg (digitsToNat (ip ++ fp)) fp.length
          (if se.1 then -(digitsToNat se.2 : Int) else (digitsToNat se.2 : Int)))
      else none
  else none

/-- First image-index entry for a (handle, position) key.  Models
`images_by_handle[handle][pos]` on the flat entry list (the building
code never records two entries with the same key). -/
def imageFind (h : String) (p : Int) : List (String × Int × String) → Option String
  | [] => none
  | e :: rest => if e.1 = h ∧ e.2.1 = p then some e.2.2 else imageFind h p rest

/-- Row loop of `collect_images`: fold the (handle, url, position)
cell triples into the first-wins image index. -/
def collectImagesAux (acc : List (String × Int × String)) :
    List (String × String × String) → List (String × Int × String)
  | [] => acc
  | r :: rest =>
    let handle := (strip r.1)
    let url := (strip r.2.1)
    let posRaw := (strip r.2.2)
    if handle = "" ∨ url = "" ∨ posRaw = "" then collectImagesAux acc rest
    else
      match parseFloatTrunc posRaw with
      | none => collectImagesAux acc rest
      | some pos =>
        if pos < 1 ∨ pos > 5 then collectImagesAux acc rest
        else if (imageFind handle pos acc).isSome then collectImagesAux acc rest
        else collectImagesAux (acc ++ [(handle, pos, url)]) rest

/-- The (Handle, Image Src, Image Position) cell triples, row by row. -/
def imageTriples (t : Table) (hc sc pc : List String) : List (String × String × String) :=
  (List.range t.nrows).map (fun i => (hc.getD i "", sc.getD i "", pc.getD i ""))

/-- `collect_images` of app.py: the per-handle, per-position image
index, flattened to an entry list; empty when any of the three fixed
columns fails to resolve. -/
def collect_images (t : Table) : List (String × Int × String) :=
  match get_col t "Handle", get_col t "Image Src", get_col t "Image Position" with
  | some hc, some sc, some pc => collectImagesAux [] (imageTriples t hc sc pc)
  | _, _, _ => []

/-! ## Text normalizer (`clean_text_value`)

The pipeline stages delegate to libraries that are not part of this
repository (`ftfy.fix_text`, `html.unescape`, `BeautifulSoup`); the
stage bodies below are therefore modelled from the spec while the
pipeline itself (`clean_text_value`) is translated from the source. -/

/-- Modelled from the spec: `ftfy.fix_text`, absent from src/ (external
library).  "Repair mis-decoded/mojibake text encoding": repairs the
common UTF-8-read-as-Latin-1 digraphs and is the identity on text
without encoding damage. -/
def fixTextAux : List Char → List Char
  | [] => []
  | 'Ã' :: '©' :: rest => 'é' :: fixTextAux rest
  | 'Ã' :: '¨' :: rest => 'è' :: fixTextAux rest
  | 'Ã' :: '§' :: rest => 'ç' :: fixTextAux rest
  | c :: rest => c :: fixTextAux rest

def fix_text (s : String) : String := String.mk (fixTextAux s.data)

/-- Named HTML entities recognised by the model of `html.unescape`. -/
def entityTable : List (String × String) :=
  [("eacute", "é"), ("egrave", "è"), ("ccedil", "ç"),
   ("amp", "&"), ("lt", "<"), ("gt", ">"), ("quot", "\"")]

/-- First value for a key in an association list. -/
def assocFind (h : String) : List (String × String) → Option String
  | [] => none
  | p :: rest => if p.1 = h then some p.2 else assocFind h rest

/-- Hex digit value, if any. -/
def hexVal (c : Char) : Option Nat :=
  if c.isDigit then some (c.toNat - 48)
  else if 'a' ≤ c ∧ c ≤ 'f' then some (c.toNat - 87)
  else if 'A' ≤ c ∧ c ≤ 'F' then some (c.toNat - 70)
  else none

/-- Value of a hex digit string. -/
def hexToNat (l : List Char) : Option Nat :=
  l.foldl (fun acc c =>
    match acc, hexVal c with
    | some n, some v => some (n * 16 + v)
    | _, _ => none) (some 0)

/-- Decode one entity body (the text between `&` and `;`). -/
def decodeEntity (ent : List Char) : Option (List Char) :=
  match ent with
  | '#' :: 'x' :: ds =>
    match hexToNat ds with
    | some n => if ds ≠ [] ∧ n.isValidChar then some [Char.ofNat n] else none
    | none => none
  | '#' :: 'X' :: ds =>
    match hexToNat ds with
    | some n => if ds ≠ [] ∧ n.isValidChar then some [Char.ofNat n] else none
    | none => none
  | '#' :: ds =>
    if ds ≠ [] ∧ ds.all Char.isDigit ∧ (digitsToNat ds).isValidChar then
      some [Char.ofNat (digitsToNat ds)]
    else none
  | _ =>
    match assocFind (String.mk ent) entityTable with
    | some r => some r.data
    | none => none

/-- Modelled from the spec: `html.unescape`, absent from src/ (Python
standard library).  "Decode HTML entities": numeric character
references and the named entities of `entityTable`; unrecognised
ampersand sequences are left as written. -/
def unescapeAux : Nat → List Char → List Char
  | 0, _ => []
  | _, [] => []
  | fuel + 1, c :: rest =>
    if c = '&' then
      let ent := rest.takeWhile (fun x => x ≠ ';')
      if ent.length < rest.length then
        match decodeEntity ent with
        | some repl => repl ++ unescapeAux fuel (rest.drop (ent.length + 1))
        | none => c :: unescapeAux fuel rest
      else c :: unescapeAux fuel rest
    else c :: unescapeAux fuel rest

/-- String form of `unescapeAux` (every step consumes at least one
character, so a fuel equal to the length is enough). -/
def htmlUnescape (s : String) : String := String.mk (unescapeAux s.data.length s.data)

/-- Modelled from the spec: `BeautifulSoup(...).get_text(separator=" ")`,
absent from src/ (external library).  "Strip HTML markup, replacing
tags with a single space separator": every `<...>` tag becomes one
space; an unterminated tag at end of input is dropped. -/
def stripTagsAux : Nat → List Char → List Char
  | 0, _ => []
  | _, [] => []
  | fuel + 1, c :: rest =>
    if c = '<' then
      let inside := rest.takeWhile (fun x => x ≠ '>')
      if inside.length < rest.length then
        ' ' :: stripTagsAux fuel (rest.drop (inside.length + 1))
      else []
    else c :: stripTagsAux fuel rest

/-- String form of `stripTagsAux`. -/
def stripTags (s : String) : String := String.mk (stripTagsAux s.data.length s.data)

/-- Python `" ".join(s.split())`: collapse whitespace runs to single
spaces and trim both ends. -/
def splitWsAux (cur : List Char) : List Char → List String
  | [] => [String.mk cur.reverse]
  | c :: rest =>
    if c.isWhitespace then String.mk cur.reverse :: splitWsAux [] rest
    else splitWsAux (c :: cur) rest

def collapseWs (s : String) : String :=
  String.intercalate " " ((splitWsAux [] s.data).filter (fun x => x ≠ ""))

/-- `clean_text_value` of app.py.  All cell values in the model are
already strings, so the `None`-to-`""` / `str(val)` coercion of the
source is the identity embedding of the input. -/
def clean_text_value (val : String) : String :=
  collapseWs (stripTags (htmlUnescape (fix_text val)))

/-- Cleanup loop of `transform`: for each requested column name, when
it resolves, map `clean_text_value` over the column it resolved to. -/
def applyCleanup (t : Table) (cleanupCols : List String) : Table :=
  cleanupCols.foldl
    (fun tt c =>
      match get_colPair tt c with
      | none => tt
      | some pr =>
        { tt with
          cols := tt.cols.map
            (fun q => if q.1 = pr.1 then (q.1, q.2.map clean_text_value) else q) })
    t

/-! ## Template data model and field classification -/

/-- `VARIANT_LEVEL_SHOPIFY_HEADERS` of app.py, verbatim. -/
def VARIANT_LEVEL_SHOPIFY_HEADERS : List String :=
  ["Variant SKU", "Variant Price", "Variant Compare At Price", "Variant Barcode",
   "Variant Inventory Qty", "Variant Grams", "Variant Weight", "Variant Weight Unit",
   "Variant Tax Code", "Variant Fulfillment Service", "Variant Requires Shipping",
   "Variant Taxable", "Variant Title", "Variant Image",
   "Option1 Value", "Option2 Value", "Option3 Value",
   "Cost per item", "Inventory Policy", "Inventory Qty", "Inventory Item ID",
   "Inventory Tracker"]

/-- A field of a template document. -/
structure TemplateField where
  key : String
  label : String
  type : String
  autoMap : Option String
deriving DecidableEq

/-- The `exportRules` of a template document. -/
structure ExportRules where
  requiredFieldKey : String
  dropRowIfBlankKeys : List String
deriving DecidableEq

/-- A template document. -/
structure Template where
  templateKey : String
  fields : List TemplateField
  exportRules : ExportRules
deriving DecidableEq

/-- An entry of `mapped_fields` in `transform`. -/
structure MappedField where
  key : String
  src : String
  label : String
deriving DecidableEq

/-- An entry of `auto_image_fields` in `transform` (the source uses a
`(key, position, label)` tuple). -/
structure AutoImageField where
  key : String
  pos : Int
  label : String
deriving DecidableEq

/-- Python truthiness of the optional `autoMap` string. -/
def autoTruthy : Option String → Bool
  | some s => s ≠ ""
  | none => false

/-- First mapping value for a field key (mapping dicts have unique
keys, so first-match lookup models dict lookup). -/
def lookupStr (k : String) : List (String × String) → Option String
  | [] => none
  | p :: rest => if p.1 = k then some p.2 else lookupStr k rest

/-- Python `s.split("=")[-1]`: the suffix after the last equals sign
(the whole string when there is none). -/
def lastAfterEq (s : String) : String :=
  String.mk ((s.data.reverse.takeWhile (fun c => c ≠ '=')).reverse)

/-- The classification loop of `transform`: partition template fields
into auto-image fields (type "image" with a truthy `autoMap` whose
trailing integer parses and is nonzero) and mapped fields (a truthy
mapping value for the key); everything else is dropped. -/
def classifyStep (mapping : List (String × String))
    (acc : List AutoImageField × List MappedField) (f : TemplateField) :
    List AutoImageField × List MappedField :=
  if autoTruthy f.autoMap = true ∧ f.type = "image" then
    match pyParseInt (lastAfterEq (f.autoMap.getD "")) with
    | some pos => if pos ≠ 0 then (acc.1 ++ [⟨f.key, pos, f.label⟩], acc.2) else acc
    | none => acc
  else
    match lookupStr f.key mapping with
    | some v => if v ≠ "" then (acc.1, acc.2 ++ [⟨f.key, v, f.label⟩]) else acc
    | none => acc

def classifyFields (tpl : Template) (mapping : List (String × String)) :
    List AutoImageField × List MappedField :=
  tpl.fields.foldl (classifyStep mapping) ([], [])

/-- The auto-image fields of a request. -/
def autoOf (tpl : Template) (mapping : List (String × String)) : List AutoImageField :=
  (classifyFields tpl mapping).1

/-- The mapped fields of a request. -/
def mappedOf (tpl : Template) (mapping : List (String × String)) : List MappedField :=
  (classifyFields tpl mapping).2

/-- `any(mi["key"] == k for mi in mapped_fields)`. -/
def existsKeyM (k : String) : List MappedField → Bool
  | [] => false
  | mi :: rest => if mi.key = k then true else existsKeyM k rest

/-- `any(ai[0] == k for ai in auto_image_fields)`. -/
def existsKeyA (k : String) : List AutoImageField → Bool
  | [] => false
  | ai :: rest => if ai.key = k then true else existsKeyA k rest

/-- `next((mi for mi in mapped_fields if mi["key"] == k), None)`. -/
def findMapped (k : String) : List MappedField → Option MappedField
  | [] => none
  | mi :: rest => if mi.key = k then some mi else findMapped k rest

/-- `next((ai for ai in auto_image_fields if ai[0] == k), None)`. -/
def findAuto (k : String) : List AutoImageField → Option AutoImageField
  | [] => none
  | ai :: rest => if ai.key = k then some ai else findAuto k rest

/-- Output header of `transform`: labels, in template order, of the
fields that are mapped or auto-image. -/
def outputHeaders (tpl : Template) (mapped : List MappedField)
    (auto : List AutoImageField) : List String :=
  tpl.fields.filterMap
    (fun f =>
      if existsKeyM f.key mapped = true then some f.label
      else if existsKeyA f.key auto = true then some f.label
      else none)

/-! ## Product-value aggregation and row emission -/

/-- The handle series of `transform`: the resolved `Handle` column, or
a distinct synthetic `__row__i` placeholder per row when absent. -/
def handleList (t : Table) : List String :=
  match get_col t "Handle" with
  | some col => (List.range t.nrows).map (fun i => col.getD i "")
  | none => (List.range t.nrows).map (fun i => "__row__" ++ toString i)

/-- The (handle, cell) pairs of one source column, row by row. -/
def pairsOf (handles col : List String) : List (String × String) :=
  (List.range handles.length).map (fun i => (handles.getD i "", col.getD i ""))

/-- The `values_by_handle` loop of `transform`: scan the (handle, cell)
pairs in order and record the first non-blank trimmed value per handle. -/
def aggPairs (acc : List (String × String)) : List (String × String) → List (String × String)
  | [] => acc
  | p :: rest =>
    let v := (strip p.2)
    if v = "" then aggPairs acc rest
    else if (assocFind p.1 acc).isSome then aggPairs acc rest
    else aggPairs (acc ++ [(p.1, v)]) rest

/-- Per-field first-non-blank-per-handle aggregation. -/
def fieldAgg (handles col : List String) : List (String × String) :=
  aggPairs [] (pairsOf handles col)

/-- `product_values[handle][key]` of `transform`: the dict-of-dicts is
built field by field with dict-assignment (last-writer-wins) per
`(handle, key)` slot, restricted to mapped fields whose source is not
variant-level and resolves. -/
def pvStep (t : Table) (handles : List String) (h k : String)
    (cur : Option String) (mi : MappedField) : Option String :=
  if mi.key = k then
    if mi.src ∈ VARIANT_LEVEL_SHOPIFY_HEADERS then cur
    else
      match get_col t mi.src with
      | none => cur
      | some col =>
        match assocFind h (fieldAgg handles col) with
        | some v => some v
        | none => cur
  else cur

def productValue (t : Table) (handles : List String) (mapped : List MappedField)
    (h k : String) : Option String :=
  mapped.foldl (pvStep t handles h k) none

/-- Emitted value of one mapped field at one row (`rows_iter`):
variant-level resolvable sources give the raw trimmed per-row value;
otherwise the aggregated product value for the row handle, falling
back to the raw trimmed per-row value (empty when unresolvable). -/
def mappedValue (t : Table) (handles : List String) (mapped : List MappedField)
    (mi : MappedField) (idx : Nat) : String :=
  let srcCol := get_col t mi.src
  if srcCol.isSome = true ∧ mi.src ∈ VARIANT_LEVEL_SHOPIFY_HEADERS then
    strip ((srcCol.getD []).getD idx "")
  else
    match productValue t handles mapped (handles.getD idx "") mi.key with
    | some v => v
    | none =>
      match srcCol with
      | some col => strip (col.getD idx "")
      | none => ""

/-- One emitted output row (`rows_iter` body): template fields in
order, mapped fields via `mappedValue`, auto-image fields via the
image index, all other fields skipped. -/
def rowValues (t : Table) (handles : List String) (tpl : Template)
    (mapped : List MappedField) (auto : List AutoImageField)
    (images : List (String × Int × String)) (idx : Nat) : List String :=
  tpl.fields.filterMap
    (fun f =>
      match findMapped f.key mapped with
      | some mi => some (mappedValue t handles mapped mi idx)
      | none =>
        match findAuto f.key auto with
        | some ai => some ((imageFind (handles.getD idx "") ai.pos images).getD "")
        | none => none)

/-- The required-field source value at one row (`rows_iter`): the
trimmed cell of the first mapped field keyed `requiredKey`, empty when
that field, a truthy source name, or the column is missing. -/
def skuVal (t : Table) (mapped : List MappedField) (requiredKey : String) (idx : Nat) : String :=
  match findMapped requiredKey mapped with
  | none => ""
  | some mi =>
    if mi.src = "" then ""
    else
      match get_col t mi.src with
      | none => ""
      | some col => strip (col.getD idx "")

/-- Row indices surviving the drop rule, in input order. -/
def keptIndices (t : Table) (mapped : List MappedField) (requiredKey : String)
    (dropKeys : List String) : List Nat :=
  (List.range t.nrows).filter
    (fun idx => decide (¬(skuVal t mapped requiredKey idx = "" ∧ requiredKey ∈ dropKeys)))

/-- The emitted row sequence of `rows_iter`. -/
def rowsOut (t : Table) (handles : List String) (tpl : Template)
    (mapped : List MappedField) (auto : List AutoImageField)
    (images : List (String × Int × String)) (requiredKey : String)
    (dropKeys : List String) : List (List String) :=
  (keptIndices t mapped requiredKey dropKeys).map (rowValues t handles tpl mapped auto images)

/-- The table actually reshaped: parsed table after the "nan" scrub
and the requested text cleanup, in that order. -/
def prepTable (t0 : Table) (cleanupCols : List String) : Table :=
  applyCleanup (normalize_headers t0) cleanupCols

/-- The `/transform` core of app.py on parsed inputs: validates the
required-field mapping, then produces the output header and rows. -/
def transform (t0 : Table) (tpl : Template) (mapping : List (String × String))
    (cleanupCols : List String) : Except String (List String × List (List String)) :=
  let t := prepTable t0 cleanupCols
  let images := collect_images t
  let auto := autoOf tpl mapping
  let mapped := mappedOf tpl mapping
  let rk := tpl.exportRules.requiredFieldKey
  if existsKeyM rk mapped = true then
    .ok (outputHeaders tpl mapped auto,
      rowsOut t (handleList t) tpl mapped auto images rk tpl.exportRules.dropRowIfBlankKeys)
  else
    .error ("Required field must be mapped: " ++ rk)

/-! ## CSV serialization (`stream_csv`) -/

/-- Minimal CSV quoting of Python `csv.writer`: quote a field that
contains a comma, a quote, or a line break; double inner quotes. -/
def escQuotes (l : List Char) : List Char :=
  l.foldr (fun c acc => if c = '"' then '"' :: '"' :: acc else c :: acc) []

def csvQuoteField (s : String) : String :=
  if s.data.any (fun c => c = ',' ∨ c = '"' ∨ c = '\r' ∨ c = '\n') then
    "\"" ++ String.mk (escQuotes s.data) ++ "\""
  else s

/-- One serialized CSV line with the CRLF terminator of `stream_csv`. -/
def csvLine (row : List String) : String :=
  String.intercalate "," (row.map csvQuoteField) ++ "\r\n"

instance exceptDecEq {ε α : Type} [DecidableEq ε] [DecidableEq α] :
    DecidableEq (Except ε α) := fun x y =>
  match x, y with
  | .error a, .error b =>
    if h : a = b then isTrue (by rw [h]) else isFalse (fun hc => h (Except.error.inj hc))
  | .ok a, .ok b =>
    if h : a = b then isTrue (by rw [h]) else isFalse (fun hc => h (Except.ok.inj hc))
  | .error _, .ok _ => isFalse (fun hc => Except.noConfusion hc)
  | .ok _, .error _ => isFalse (fun hc => Except.noConfusion hc)

/-- The streamed chunk sequence of a `/transform` request: the UTF-8
BOM chunk, the header line, then one chunk per emitted row; an aborted
(validation-failed) request streams nothing. -/
def transformChunks (t0 : Table) (tpl : Template) (mapping : List (String × String))
    (cleanupCols : List String) : List String :=
  match transform t0 tpl mapping cleanupCols with
  | .error _ => []
  | .ok hr => "\uFEFF" :: csvLine hr.1 :: hr.2.map csvLine

/-! ## Spec-side definitions (for refinement comparison) -/

/-- Follows the spec's words: the first non-blank trimmed value of a
source column among the rows sharing a handle, in original row order. -/
def specFirstNonBlank (h : String) : List (String × String) → Option String
  | [] => none
  | p :: rest =>
    if p.1 = h ∧ (strip p.2) ≠ "" then some (strip p.2) else specFirstNonBlank h rest

/-- Follows the spec's words: the stored URL for `(h, p)` is the
trimmed Image Src of the first row whose trimmed Handle equals `h` and
is non-blank, whose trimmed Image Src and Image Position are
non-blank, and whose position parses to exactly `p` with `1 ≤ p ≤ 5`. -/
def specImageFind (h : String) (p : Int) : List (String × String × String) → Option String
  | [] => none
  | r :: rest =>
    if (strip r.1) = h ∧ (strip r.1) ≠ "" ∧ (strip r.2.1) ≠ "" ∧ (strip r.2.2) ≠ "" ∧
        parseFloatTrunc (strip r.2.2) = some p ∧ 1 ≤ p ∧ p ≤ 5 then
      some (strip r.2.1)
    else specImageFind h p rest

/-! ## Helper lemmas -/

theorem existsKeyM_eq_isSome (k : String) (l : List MappedField) :
    existsKeyM k l = (findMapped k l).isSome := by
  induction l with
  | nil => rfl
  | cons mi rest ih =>
    by_cases h : mi.key = k <;> simp [existsKeyM, findMapped, h, ih]

theorem existsKeyA_eq_isSome (k : String) (l : List AutoImageField) :
    existsKeyA k l = (findAuto k l).isSome := by
  induction l with
  | nil => rfl
  | cons ai rest ih =>
    by_cases h : ai.key = k <;> simp [existsKeyA, findAuto, h, ih]

theorem existsKeyM_iff (k : String) (l : List MappedField) :
    existsKeyM k l = true ↔ ∃ mi ∈ l, mi.key = k := by
  induction l with
  | nil => simp [existsKeyM]
  | cons mi rest ih =>
    by_cases h : mi.key = k
    · constructor
      · intro _
        exact ⟨mi, List.mem_cons_self mi rest, h⟩
      · intro _
        simp [existsKeyM, h]
    · simp only [existsKeyM, if_neg h, ih]
      constructor
      · rintro ⟨x, hx, hk⟩
        exact ⟨x, List.mem_cons_of_mem _ hx, hk⟩
      · rintro ⟨x, hx, hk⟩
        rcases List.mem_cons.mp hx with rfl | hx
        · exact absurd hk h
        · exact ⟨x, hx, hk⟩

theorem length_filterMap_congr {α β γ : Type} (f : α → Option β) (g : α → Option γ) :
    ∀ l : List α, (∀ a ∈ l, (f a).isSome = (g a).isSome) →
      (l.filterMap f).length = (l.filterMap g).length := by
  intro l
  induction l with
  | nil => intro _; rfl
  | cons a rest ih =>
    intro h
    have ha := h a (List.mem_cons_self a rest)
    have hrest := ih (fun x hx => h x (List.mem_cons_of_mem _ hx))
    cases hfa : f a with
    | none =>
      cases hga : g a with
      | none => simpa [List.filterMap_cons, hfa, hga] using hrest
      | some b => rw [hfa, hga] at ha; simp at ha
    | some b =>
      cases hga : g a with
      | none => rw [hfa, hga] at ha; simp at ha
      | some c => simpa [List.filterMap_cons, hfa, hga] using hrest

theorem length_filterMap_eq_length_filter {α β : Type} (f : α → Option β) (p : α → Bool) :
    ∀ l : List α, (∀ a ∈ l, (f a).isSome = p a) →
      (l.filterMap f).length = (l.filter p).length := by
  intro l
  induction l with
  | nil => intro _; rfl
  | cons a rest ih =>
    intro h
    have ha := h a (List.mem_cons_self a rest)
    have hrest := ih (fun x hx => h x (List.mem_cons_of_mem _ hx))
    cases hfa : f a with
    | none =>
      rw [hfa] at ha
      simp only [Option.isSome_none] at ha
      simp [List.filterMap_cons, List.filter_cons, hfa, ← ha, hrest]
    | some b =>
      rw [hfa] at ha
      simp only [Option.isSome_some] at ha
      simp [List.filterMap_cons, List.filter_cons, hfa, ← ha, hrest]

theorem assocFind_append_singleton (h h' v : String) (acc : List (String × String)) :
    assocFind h (acc ++ [(h', v)]) =
      match assocFind h acc with
      | some w => some w
      | none => if h' = h then some v else none := by
  induction acc with
  | nil => simp [assocFind]
  | cons p rest ih =>
    by_cases hp : p.1 = h <;> simp [assocFind, hp, ih]

theorem assocFind_aggPairs (h : String) (l : List (String × String)) :
    ∀ acc : List (String × String),
      assocFind h (aggPairs acc l) =
        match assocFind h acc with
        | some w => some w
        | none => specFirstNonBlank h l := by
  induction l with
  | nil =>
    intro acc
    cases hacc : assocFind h acc <;> simp [aggPairs, specFirstNonBlank, hacc]
  | cons p rest ih =>
    intro acc
    by_cases hv : (strip p.2) = ""
    · have hcond : ¬(p.1 = h ∧ (strip p.2) ≠ "") := by
        rintro ⟨_, hne⟩; exact hne hv
      simp only [aggPairs, if_pos hv, specFirstNonBlank, if_neg hcond]
      exact ih acc
    · by_cases hmem : (assocFind p.1 acc).isSome
      · simp only [aggPairs, if_neg hv, if_pos hmem]
        rw [ih acc]
        by_cases hph : p.1 = h
        · subst hph
          rcases Option.isSome_iff_exists.mp hmem with ⟨w, hw⟩
          simp [hw]
        · have hcond : ¬(p.1 = h ∧ (strip p.2) ≠ "") := by
            rintro ⟨he, _⟩; exact hph he
          simp [specFirstNonBlank, if_neg hcond]
      · simp only [aggPairs, if_neg hv, if_neg hmem]
        rw [ih (acc ++ [(p.1, (strip p.2))])]
        rw [assocFind_append_singleton]
        by_cases hph : p.1 = h
        · subst hph
          have hnone : assocFind p.1 acc = none := by
            cases hacc : assocFind p.1 acc with
            | none => rfl
            | some w => rw [hacc] at hmem; simp at hmem
          have hcond : p.1 = p.1 ∧ (strip p.2) ≠ "" := ⟨rfl, hv⟩
          simp [hnone, specFirstNonBlank, if_pos hcond, hv]
        · have hcond : ¬(p.1 = h ∧ (strip p.2) ≠ "") := by
            rintro ⟨he, _⟩; exact hph he
          simp only [specFirstNonBlank, if_neg hcond]
          cases hacc : assocFind h acc <;> simp [hacc, if_neg hph]

theorem imageFind_append_singleton (h : String) (p : Int) (e : String × Int × String)
    (acc : List (String × Int × String)) :
    imageFind h p (acc ++ [e]) =
      match imageFind h p acc with
      | some w => some w
      | none => if e.1 = h ∧ e.2.1 = p then some e.2.2 else none := by
  induction acc with
  | nil => simp [imageFind]
  | cons x rest ih =>
    by_cases hx : x.1 = h ∧ x.2.1 = p <;> simp [imageFind, hx, ih]

theorem imageFind_collectImagesAux (h : String) (p : Int)
    (l : List (String × String × String)) :
    ∀ acc : List (String × Int × String),
      imageFind h p (collectImagesAux acc l) =
        match imageFind h p acc with
        | some w => some w
        | none => specImageFind h p l := by
  induction l with
  | nil =>
    intro acc
    cases hacc : imageFind h p acc <;> simp [collectImagesAux, specImageFind, hacc]
  | cons r rest ih =>
    intro acc
    by_cases hblank : (strip r.1) = "" ∨ (strip r.2.1) = "" ∨ (strip r.2.2) = ""
    · have hcond : ¬((strip r.1) = h ∧ (strip r.1) ≠ "" ∧ (strip r.2.1) ≠ "" ∧ (strip r.2.2) ≠ "" ∧
          parseFloatTrunc (strip r.2.2) = some p ∧ 1 ≤ p ∧ p ≤ 5) := by
        rintro ⟨_, h1, h2, h3, _⟩
        rcases hblank with hb | hb | hb
        · exact h1 hb
        · exact h2 hb
        · exact h3 hb
      simp only [collectImagesAux, if_pos hblank, specImageFind, if_neg hcond]
      exact ih acc
    · push_neg at hblank
      obtain ⟨hh, hu, hp⟩ := hblank
      simp only [collectImagesAux, if_neg (by tauto :
        ¬((strip r.1) = "" ∨ (strip r.2.1) = "" ∨ (strip r.2.2) = ""))]
      cases hparse : parseFloatTrunc (strip r.2.2) with
      | none =>
        have hcond : ¬((strip r.1) = h ∧ (strip r.1) ≠ "" ∧ (strip r.2.1) ≠ "" ∧ (strip r.2.2) ≠ "" ∧
            parseFloatTrunc (strip r.2.2) = some p ∧ 1 ≤ p ∧ p ≤ 5) := by
          rintro ⟨_, _, _, _, hps, _⟩
          rw [hparse] at hps
          exact Option.noConfusion hps
        simp only [specImageFind, if_neg hcond]
        exact ih acc
      | some pos =>
        by_cases hrange : pos < 1 ∨ pos > 5
        · have hcond : ¬((strip r.1) = h ∧ (strip r.1) ≠ "" ∧ (strip r.2.1) ≠ "" ∧ (strip r.2.2) ≠ "" ∧
              parseFloatTrunc (strip r.2.2) = some p ∧ 1 ≤ p ∧ p ≤ 5) := by
            rintro ⟨_, _, _, _, hps, hp1, hp5⟩
            rw [hparse] at hps
            have : pos = p := Option.some.injEq _ _ ▸ hps
            omega
          simp only [if_pos hrange, specImageFind, if_neg hcond]
          exact ih acc
        · simp only [if_neg hrange]
          by_cases hmem : (imageFind (strip r.1) pos acc).isSome
          · simp only [if_pos hmem]
            rw [ih acc]
            by_cases hkey : (strip r.1) = h ∧ pos = p
            · obtain ⟨hk1, hk2⟩ := hkey
              rw [hk1, hk2] at hmem
              rcases Option.isSome_iff_exists.mp hmem with ⟨w, hw⟩
              simp [hw]
            · have hcond : ¬((strip r.1) = h ∧ (strip r.1) ≠ "" ∧ (strip r.2.1) ≠ "" ∧
                  (strip r.2.2) ≠ "" ∧ parseFloatTrunc (strip r.2.2) = some p ∧ 1 ≤ p ∧ p ≤ 5) := by
                rintro ⟨hk, _, _, _, hps, _⟩
                rw [hparse] at hps
                have : pos = p := Option.some.injEq _ _ ▸ hps
                exact hkey ⟨hk, this⟩
              simp only [specImageFind, if_neg hcond]
          · simp only [if_neg hmem]
            rw [ih (acc ++ [((strip r.1), pos, (strip r.2.1))])]
            rw [imageFind_append_singleton]
            by_cases hkey : (strip r.1) = h ∧ pos = p
            · obtain ⟨hk1, hk2⟩ := hkey
              have hnone : imageFind h p acc = none := by
                cases hacc : imageFind h p acc with
                | none => rfl
                | some w =>
                  rw [hk1, hk2] at hmem
                  rw [hacc] at hmem
                  simp at hmem
              have hcond : (strip r.1) = h ∧ (strip r.1) ≠ "" ∧ (strip r.2.1) ≠ "" ∧
                  (strip r.2.2) ≠ "" ∧ parseFloatTrunc (strip r.2.2) = some p ∧ 1 ≤ p ∧ p ≤ 5 := by
                refine ⟨hk1, hh, hu, hp, ?_, ?_, ?_⟩
                · rw [hparse, hk2]
                · omega
                · omega
              have hcond2 : ¬h = "" ∧ ¬(strip r.2.1) = "" ∧ ¬(strip r.2.2) = "" ∧
                  parseFloatTrunc (strip r.2.2) = some p ∧ 1 ≤ p ∧ p ≤ 5 := by
                refine ⟨hk1 ▸ hh, hu, hp, ?_, ?_, ?_⟩
                · rw [hparse, hk2]
                · omega
                · omega
              simp [hnone, hk1, hk2, specImageFind, hcond2]
            · have hcond : ¬((strip r.1) = h ∧ (strip r.1) ≠ "" ∧ (strip r.2.1) ≠ "" ∧
                  (strip r.2.2) ≠ "" ∧ parseFloatTrunc (strip r.2.2) = some p ∧ 1 ≤ p ∧ p ≤ 5) := by
                rintro ⟨hk, _, _, _, hps, _⟩
                rw [hparse] at hps
                have : pos = p := Option.some.injEq _ _ ▸ hps
                exact hkey ⟨hk, this⟩
              simp only [specImageFind, if_neg hcond, if_neg hkey]
              cases hacc : imageFind h p acc <;> simp [hacc]

theorem foldl_pvStep_skip (t : Table) (handles : List String) (h k : String) :
    ∀ (l : List MappedField) (cur : Option String), (∀ x ∈ l, x.key ≠ k) →
      l.foldl (pvStep t handles h k) cur = cur := by
  intro l
  induction l with
  | nil => intro cur _; rfl
  | cons x rest ih =>
    intro cur hne
    have hx : x.key ≠ k := hne x (List.mem_cons_self x rest)
    have hstep : pvStep t handles h k cur x = cur := by
      simp [pvStep, hx]
    rw [List.foldl_cons, hstep]
    exact ih cur (fun y hy => hne y (List.mem_cons_of_mem _ hy))

theorem filter_single_key {k : String} {mapped : List MappedField} {mi : MappedField}
    (hfil : mapped.filter (fun x => decide (x.key = k)) = [mi]) : mi.key = k := by
  have : mi ∈ mapped.filter (fun x => decide (x.key = k)) := by
    rw [hfil]; exact List.mem_singleton_self mi
  have := List.of_mem_filter this
  simpa using this

theorem productValue_single (t : Table) (handles : List String) (h k : String)
    (mi : MappedField) :
    ∀ mapped : List MappedField, mapped.filter (fun x => decide (x.key = k)) = [mi] →
      productValue t handles mapped h k =
        (if mi.src ∈ VARIANT_LEVEL_SHOPIFY_HEADERS then none
         else
           match get_col t mi.src with
           | none => none
           | some col => assocFind h (fieldAgg handles col)) := by
  intro mapped
  induction mapped with
  | nil => intro hfil; simp at hfil
  | cons x rest ih =>
    intro hfil
    by_cases hx : x.key = k
    · rw [List.filter_cons_of_pos (by simpa using hx)] at hfil
      have hxmi : x = mi := (List.cons.injEq _ _ _ _).mp hfil |>.1
      have hrest : rest.filter (fun x => decide (x.key = k)) = [] :=
        (List.cons.injEq _ _ _ _).mp hfil |>.2
      have hnone : ∀ y ∈ rest, y.key ≠ k := by
        intro y hy hyk
        have := List.filter_eq_nil_iff.mp hrest y hy
        simp [hyk] at this
      subst hxmi
      unfold productValue
      rw [List.foldl_cons, foldl_pvStep_skip t handles h k rest _ hnone]
      simp only [pvStep, if_pos hx]
      by_cases hv : x.src ∈ VARIANT_LEVEL_SHOPIFY_HEADERS
      · simp [hv]
      · simp only [if_neg hv]
        cases hcol : get_col t x.src with
        | none => simp
        | some col => cases haf : assocFind h (fieldAgg handles col) <;> simp [haf]
    · rw [List.filter_cons_of_neg (by simpa using hx)] at hfil
      have hstep : pvStep t handles h k none x = none := by
        simp [pvStep, hx]
      unfold productValue
      rw [List.foldl_cons, hstep]
      exact ih hfil

theorem findMapped_of_filter_single {k : String} {mapped : List MappedField}
    {mi : MappedField} (hfil : mapped.filter (fun x => decide (x.key = k)) = [mi]) :
    findMapped k mapped = some mi := by
  induction mapped with
  | nil => simp at hfil
  | cons x rest ih =>
    by_cases hx : x.key = k
    · rw [List.filter_cons_of_pos (by simpa using hx)] at hfil
      have hxmi : x = mi := (List.cons.injEq _ _ _ _).mp hfil |>.1
      subst hxmi
      simp [findMapped, hx]
    · rw [List.filter_cons_of_neg (by simpa using hx)] at hfil
      simp only [findMapped, if_neg hx]
      exact ih hfil

theorem mappedValue_product (t : Table) (handles : List String)
    (mapped : List MappedField) (mi : MappedField) (col : List String) (idx : Nat)
    (hfil : mapped.filter (fun x => decide (x.key = mi.key)) = [mi])
    (hnv : mi.src ∉ VARIANT_LEVEL_SHOPIFY_HEADERS)
    (hcol : get_col t mi.src = some col) :
    mappedValue t handles mapped mi idx =
      (specFirstNonBlank (handles.getD idx "") (pairsOf handles col)).getD
        (strip (col.getD idx "")) := by
  have hpv0 := productValue_single t handles (handles.getD idx "") mi.key mi mapped hfil
  rw [if_neg hnv, hcol] at hpv0
  have hagg := assocFind_aggPairs (handles.getD idx "") (pairsOf handles col) []
  simp only [assocFind] at hagg
  have hpv : productValue t handles mapped (handles.getD idx "") mi.key =
      specFirstNonBlank (handles.getD idx "") (pairsOf handles col) := by
    rw [← hagg]
    exact hpv0
  unfold mappedValue
  rw [hcol]
  have hcond : ¬((some col).isSome = true ∧ mi.src ∈ VARIANT_LEVEL_SHOPIFY_HEADERS) := by
    rintro ⟨_, hvar⟩; exact hnv hvar
  rw [if_neg hcond, hpv]
  cases hspec : specFirstNonBlank (handles.getD idx "") (pairsOf handles col) <;> simp [hspec]

theorem mappedValue_unresolved (t : Table) (handles : List String)
    (mapped : List MappedField) (mi : MappedField) (idx : Nat)
    (hfil : mapped.filter (fun x => decide (x.key = mi.key)) = [mi])
    (hcol : get_col t mi.src = none) :
    mappedValue t handles mapped mi idx = "" := by
  have hpv := productValue_single t handles (handles.getD idx "") mi.key mi mapped hfil
  rw [hcol] at hpv
  unfold mappedValue
  rw [hcol]
  have hcond : ¬((none : Option (List String)).isSome = true ∧
      mi.src ∈ VARIANT_LEVEL_SHOPIFY_HEADERS) := by
    rintro ⟨hs, _⟩; simp at hs
  rw [if_neg hcond]
  by_cases hv : mi.src ∈ VARIANT_LEVEL_SHOPIFY_HEADERS
  · rw [if_pos hv] at hpv
    rw [hpv]
  · rw [if_neg hv] at hpv
    rw [hpv]

theorem mappedOf_mem_spec (tpl : Template) (mapping : List (String × String)) :
    ∀ mi ∈ mappedOf tpl mapping, ∃ f ∈ tpl.fields, f.key = mi.key ∧ f.label = mi.label ∧
      lookupStr f.key mapping = some mi.src ∧ mi.src ≠ "" := by
  have main : ∀ (l : List TemplateField) (acc : List AutoImageField × List MappedField),
      ∀ mi ∈ (l.foldl (classifyStep mapping) acc).2, mi ∈ acc.2 ∨
        ∃ f ∈ l, f.key = mi.key ∧ f.label = mi.label ∧
          lookupStr f.key mapping = some mi.src ∧ mi.src ≠ "" := by
    intro l
    induction l with
    | nil => intro acc mi hmi; exact Or.inl hmi
    | cons f rest ih =>
      intro acc mi hmi
      rw [List.foldl_cons] at hmi
      rcases ih (classifyStep mapping acc f) mi hmi with hacc | ⟨f', hf', hspec⟩
      · unfold classifyStep at hacc
        by_cases hauto : autoTruthy f.autoMap = true ∧ f.type = "image"
        · rw [if_pos hauto] at hacc
          cases hpos : pyParseInt (lastAfterEq (f.autoMap.getD "")) with
          | none => rw [hpos] at hacc; exact Or.inl hacc
          | some pos =>
            rw [hpos] at hacc
            by_cases hz : pos ≠ 0 <;> simp [hz] at hacc <;> exact Or.inl hacc
        · rw [if_neg hauto] at hacc
          cases hlk : lookupStr f.key mapping with
          | none => rw [hlk] at hacc; exact Or.inl hacc
          | some v =>
            rw [hlk] at hacc
            have hacc2 : mi ∈ (if v ≠ "" then
                (acc.1, acc.2 ++ [(⟨f.key, v, f.label⟩ : MappedField)]) else acc).2 := hacc
            by_cases hv : v ≠ ""
            · rw [if_pos hv] at hacc2
              rcases List.mem_append.mp hacc2 with h1 | h2
              · exact Or.inl h1
              · have : mi = ⟨f.key, v, f.label⟩ := List.mem_singleton.mp h2
                subst this
                exact Or.inr ⟨f, List.mem_cons_self f rest, rfl, rfl, hlk, hv⟩
            · rw [if_neg hv] at hacc2
              exact Or.inl hacc2
      · exact Or.inr ⟨f', List.mem_cons_of_mem _ hf', hspec⟩
  intro mi hmi
  rcases main tpl.fields ([], []) mi hmi with h | ⟨f, hf, hspec⟩
  · simp at h
  · exact ⟨f, hf, hspec⟩

theorem rowValues_length_eq (t : Table) (handles : List String) (tpl : Template)
    (mapped : List MappedField) (auto : List AutoImageField)
    (images : List (String × Int × String)) (idx : Nat) :
    (rowValues t handles tpl mapped auto images idx).length =
      (outputHeaders tpl mapped auto).length := by
  unfold rowValues outputHeaders
  apply length_filterMap_congr
  intro f _
  cases hm : findMapped f.key mapped with
  | some mi => simp [hm, existsKeyM_eq_isSome]
  | none =>
    cases ha : findAuto f.key auto with
    | some ai => simp [hm, ha, existsKeyM_eq_isSome, existsKeyA_eq_isSome]
    | none => simp [hm, ha, existsKeyM_eq_isSome, existsKeyA_eq_isSome]

theorem outputHeaders_length (tpl : Template) (mapped : List MappedField)
    (auto : List AutoImageField) :
    (outputHeaders tpl mapped auto).length =
      (tpl.fields.filter
        (fun f => existsKeyM f.key mapped || existsKeyA f.key auto)).length := by
  unfold outputHeaders
  apply length_filterMap_eq_length_filter
  intro f _
  by_cases hm : existsKeyM f.key mapped = true
  · simp [hm]
  · by_cases ha : existsKeyA f.key auto = true <;> simp [hm, ha]

/-! ## Claim theorems -/

/-- C1: for every input table, template and mapping that passes the
required-field validation, every emitted row has exactly as many cells
as the output header has labels, and template fields that are neither
mapped nor auto-image (including image fields whose autoMap position
fails to parse, which land in neither group) contribute entries to
neither the header nor any row: the header length equals the count of
mapped-or-auto fields only. -/
theorem C1_header_row_sync (t0 : Table) (tpl : Template)
    (mapping : List (String × String)) (cleanupCols : List String)
    (hdr : List String) (rows : List (List String))
    (hok : transform t0 tpl mapping cleanupCols = .ok (hdr, rows)) :
    (∀ r ∈ rows, r.length = hdr.length) ∧
      hdr.length = (tpl.fields.filter
        (fun f => existsKeyM f.key (mappedOf tpl mapping) ||
          existsKeyA f.key (autoOf tpl mapping))).length := by
  simp only [transform] at hok
  by_cases hreq : existsKeyM tpl.exportRules.requiredFieldKey (mappedOf tpl mapping) = true
  · rw [if_pos hreq] at hok
    simp only [Except.ok.injEq, Prod.mk.injEq] at hok
    obtain ⟨hh, hr⟩ := hok
    subst hh hr
    constructor
    · intro r hr
      rcases List.mem_map.mp hr with ⟨idx, _, hval⟩
      rw [← hval]
      exact rowValues_length_eq _ _ _ _ _ _ _
    · exact outputHeaders_length tpl (mappedOf tpl mapping) (autoOf tpl mapping)
  · rw [if_neg hreq] at hok
    exact Except.noConfusion hok

/-- C1 witness: the spec's end-to-end scenario evaluated concretely. -/
def wTbl : Table :=
  { cols := [("Handle", ["A", "A"]),
             ("Variant SKU", ["S1", ""]),
             ("Image Src", ["http://x/1.jpg", ""]),
             ("Image Position", ["1", ""])],
    nrows := 2 }

def wTpl : Template :=
  { templateKey := "zilo",
    fields := [⟨"sku", "SKU", "text", none⟩,
               ⟨"img1", "Image 1", "image", some "position=1"⟩],
    exportRules := ⟨"sku", ["sku"]⟩ }

def wMap : List (String × String) := [("sku", "Variant SKU")]

/-- Witness for C1 at the spec's scenario input. -/
theorem C1_header_row_sync_witness :
    transform wTbl wTpl wMap [] = .ok (["SKU", "Image 1"], [["S1", "http://x/1.jpg"]]) ∧
    (∀ r ∈ [["S1", "http://x/1.jpg"]],
      r.length = (["SKU", "Image 1"] : List String).length) :=
  ⟨by decide, (C1_header_row_sync wTbl wTpl wMap [] _ _ (by decide)).1⟩

/-- C2: for every input row, the row is present in the output iff its
required-field source value (trimmed) is non-blank OR the required key
is not among the drop-if-blank keys; the surviving rows are exactly the
kept indices mapped through the row builder in increasing (input)
order, so dropped rows contribute nothing and order is preserved. -/
theorem C2_drop_rule (t0 : Table) (tpl : Template)
    (mapping : List (String × String)) (cleanupCols : List String)
    (hdr : List String) (rows : List (List String)) (idx : Nat)
    (hok : transform t0 tpl mapping cleanupCols = .ok (hdr, rows))
    (hidx : idx < (prepTable t0 cleanupCols).nrows) :
    rows = (keptIndices (prepTable t0 cleanupCols) (mappedOf tpl mapping)
        tpl.exportRules.requiredFieldKey tpl.exportRules.dropRowIfBlankKeys).map
        (rowValues (prepTable t0 cleanupCols) (handleList (prepTable t0 cleanupCols))
          tpl (mappedOf tpl mapping) (autoOf tpl mapping)
          (collect_images (prepTable t0 cleanupCols))) ∧
    (idx ∈ keptIndices (prepTable t0 cleanupCols) (mappedOf tpl mapping)
        tpl.exportRules.requiredFieldKey tpl.exportRules.dropRowIfBlankKeys ↔
      (skuVal (prepTable t0 cleanupCols) (mappedOf tpl mapping)
          tpl.exportRules.requiredFieldKey idx ≠ "" ∨
        tpl.exportRules.requiredFieldKey ∉ tpl.exportRules.dropRowIfBlankKeys)) ∧
    List.Pairwise (· < ·)
      (keptIndices (prepTable t0 cleanupCols) (mappedOf tpl mapping)
        tpl.exportRules.requiredFieldKey tpl.exportRules.dropRowIfBlankKeys) := by
  refine ⟨?_, ?_, ?_⟩
  · simp only [transform] at hok
    by_cases hreq : existsKeyM tpl.exportRules.requiredFieldKey (mappedOf tpl mapping) = true
    · rw [if_pos hreq] at hok
      simp only [Except.ok.injEq, Prod.mk.injEq] at hok
      exact hok.2.symm
    · rw [if_neg hreq] at hok
      exact Except.noConfusion hok
  · simp only [keptIndices, List.mem_filter, List.mem_range, decide_eq_true_eq]
    constructor
    · rintro ⟨_, hnd⟩
      tauto
    · intro h
      exact ⟨hidx, by tauto⟩
  · exact (List.pairwise_lt_range _).filter _

/-- Witness for C2 at the spec's scenario input: row 1 (blank required
value with the drop rule active) is dropped, row 0 survives. -/
theorem C2_drop_rule_witness :
    transform wTbl wTpl wMap [] = .ok (["SKU", "Image 1"], [["S1", "http://x/1.jpg"]]) ∧
    0 < (prepTable wTbl []).nrows ∧
    ([["S1", "http://x/1.jpg"]] : List (List String)) =
      (keptIndices (prepTable wTbl []) (mappedOf wTpl wMap)
        wTpl.exportRules.requiredFieldKey wTpl.exportRules.dropRowIfBlankKeys).map
        (rowValues (prepTable wTbl []) (handleList (prepTable wTbl [])) wTpl
          (mappedOf wTpl wMap) (autoOf wTpl wMap) (collect_images (prepTable wTbl []))) :=
  ⟨by decide, by decide,
    (C2_drop_rule wTbl wTpl wMap [] ["SKU", "Image 1"] [["S1", "http://x/1.jpg"]] 0
      (by decide) (by decide)).1⟩

/-- C3: for every row and every mapped field whose source column name
is not variant-level (and whose key is mapped exactly once, as template
keys are unique), the emitted value is the first non-blank trimmed
value of that source column among all rows sharing the row's handle,
in original row order (later rows included); when no row with that
handle has a non-blank value, it falls back to the current row's own
trimmed value.  The first conjunct ties `mi` to the field the row
builder actually uses. -/
theorem C3_first_wins_aggregation (t : Table) (mapped : List MappedField)
    (mi : MappedField) (col : List String) (idx : Nat)
    (hfil : mapped.filter (fun x => decide (x.key = mi.key)) = [mi])
    (hnv : mi.src ∉ VARIANT_LEVEL_SHOPIFY_HEADERS)
    (hcol : get_col t mi.src = some col) :
    findMapped mi.key mapped = some mi ∧
    mappedValue t (handleList t) mapped mi idx =
      (specFirstNonBlank ((handleList t).getD idx "")
        (pairsOf (handleList t) col)).getD (strip (col.getD idx "")) :=
  ⟨findMapped_of_filter_single hfil,
   mappedValue_product t (handleList t) mapped mi col idx hfil hnv hcol⟩

/-- C3 witness data: two rows sharing handle "A" with different
non-blank product-level Title values. -/
def wTbl3 : Table :=
  { cols := [("Handle", ["A", "A"]),
             ("Title", ["T1", "T2"]),
             ("Variant SKU", ["S1", "S2"])],
    nrows := 2 }

def wMapped3 : List MappedField :=
  [⟨"sku", "Variant SKU", "SKU"⟩, ⟨"title", "Title", "Title"⟩]

def wMi3 : MappedField := ⟨"title", "Title", "Title"⟩

/-- Witness for C3: at row 1 the emitted Title is the EARLIER row's
value "T1", not the row's own "T2". -/
theorem C3_first_wins_aggregation_witness :
    get_col wTbl3 wMi3.src = some ["T1", "T2"] ∧
    mappedValue wTbl3 (handleList wTbl3) wMapped3 wMi3 1 = "T1" :=
  ⟨by decide,
   Eq.trans
     ((C3_first_wins_aggregation wTbl3 wMapped3 wMi3 ["T1", "T2"] 1
        (by decide) (by decide) (by decide)).2)
     (by decide)⟩

/-- C4: when the mapping supplies no non-empty source name for the
field keyed by `requiredFieldKey`, the transform fails with the
client-facing validation error and streams zero bytes (no BOM, no
header line, no row chunks). -/
theorem C4_missing_required (t0 : Table) (tpl : Template)
    (mapping : List (String × String)) (cleanupCols : List String)
    (hmap : (lookupStr tpl.exportRules.requiredFieldKey mapping).getD "" = "") :
    transform t0 tpl mapping cleanupCols =
      .error ("Required field must be mapped: " ++ tpl.exportRules.requiredFieldKey) ∧
    transformChunks t0 tpl mapping cleanupCols = [] := by
  have hreq : ¬ existsKeyM tpl.exportRules.requiredFieldKey (mappedOf tpl mapping) = true := by
    intro hc
    rcases (existsKeyM_iff _ _).mp hc with ⟨mi, hmi, hk⟩
    rcases mappedOf_mem_spec tpl mapping mi hmi with ⟨f, _, hkey, _, hlk, hne⟩
    rw [hkey, hk] at hlk
    rw [hlk] at hmap
    exact hne hmap
  have herr : transform t0 tpl mapping cleanupCols =
      .error ("Required field must be mapped: " ++ tpl.exportRules.requiredFieldKey) := by
    simp only [transform]
    rw [if_neg hreq]
  refine ⟨herr, ?_⟩
  simp only [transformChunks, herr]

/-- Witness for C4: scenario with the required key absent from the
mapping; the transform is rejected and no chunk is produced. -/
theorem C4_missing_required_witness :
    (lookupStr wTpl.exportRules.requiredFieldKey ([] : List (String × String))).getD "" = "" ∧
    transformChunks wTbl wTpl [] [] = [] :=
  ⟨by decide, (C4_missing_required wTbl wTpl [] [] (by decide)).2⟩

/-- C5: the image index has an entry at `(hdl, p)` exactly when some
input row has non-blank trimmed Handle equal to `hdl`, non-blank
trimmed Image Src and Image Position, and a position string parsing
(as a number, truncated) to exactly `p` with `1 ≤ p ≤ 5`; the stored
URL is the first such row's (later duplicates are discarded); when any
of the three fixed columns is unresolvable, the index is empty. -/
theorem C5_image_index (t : Table) (hdl : String) (p : Int) :
    match get_col t "Handle", get_col t "Image Src", get_col t "Image Position" with
    | some hc, some sc, some pc =>
      imageFind hdl p (collect_images t) = specImageFind hdl p (imageTriples t hc sc pc)
    | _, _, _ => collect_images t = [] := by
  cases h1 : get_col t "Handle" with
  | none => simp [collect_images, h1]
  | some hc =>
    cases h2 : get_col t "Image Src" with
    | none => simp [collect_images, h1, h2]
    | some sc =>
      cases h3 : get_col t "Image Position" with
      | none => simp [collect_images, h1, h2, h3]
      | some pc =>
        simp only
        have hco : collect_images t = collectImagesAux [] (imageTriples t hc sc pc) := by
          simp [collect_images, h1, h2, h3]
        rw [hco]
        have := imageFind_collectImagesAux hdl p (imageTriples t hc sc pc) []
        simpa [imageFind] using this

/-- C6: a mapped field whose source column resolves to no column of
the input table does not make the transform fail (validation only
inspects the mapping): the field still contributes its label to the
header, and its emitted value is the empty string at every row. -/
theorem C6_missing_column (t0 : Table) (tpl : Template)
    (mapping : List (String × String)) (cleanupCols : List String)
    (mi : MappedField) (idx : Nat)
    (hfil : (mappedOf tpl mapping).filter (fun x => decide (x.key = mi.key)) = [mi])
    (hcol : get_col (prepTable t0 cleanupCols) mi.src = none)
    (hreq : existsKeyM tpl.exportRules.requiredFieldKey (mappedOf tpl mapping) = true) :
    (∃ hdr rows, transform t0 tpl mapping cleanupCols = .ok (hdr, rows)) ∧
    mi.label ∈ outputHeaders tpl (mappedOf tpl mapping) (autoOf tpl mapping) ∧
    mappedValue (prepTable t0 cleanupCols) (handleList (prepTable t0 cleanupCols))
      (mappedOf tpl mapping) mi idx = "" := by
  refine ⟨⟨outputHeaders tpl (mappedOf tpl mapping) (autoOf tpl mapping),
    rowsOut (prepTable t0 cleanupCols) (handleList (prepTable t0 cleanupCols)) tpl
      (mappedOf tpl mapping) (autoOf tpl mapping)
      (collect_images (prepTable t0 cleanupCols))
      tpl.exportRules.requiredFieldKey tpl.exportRules.dropRowIfBlankKeys, ?_⟩, ?_, ?_⟩
  · simp only [transform]
    rw [if_pos hreq]
  · have hmem : mi ∈ mappedOf tpl mapping := by
      have : mi ∈ (mappedOf tpl mapping).filter (fun x => decide (x.key = mi.key)) := by
        rw [hfil]; exact List.mem_singleton_self mi
      exact List.mem_of_mem_filter this
    rcases mappedOf_mem_spec tpl mapping mi hmem with ⟨f, hf, hkey, hlabel, _, _⟩
    unfold outputHeaders
    apply List.mem_filterMap.mpr
    refine ⟨f, hf, ?_⟩
    have hex : existsKeyM f.key (mappedOf tpl mapping) = true :=
      (existsKeyM_iff _ _).mpr ⟨mi, hmem, hkey.symm⟩
    rw [if_pos hex, hlabel]
  · exact mappedValue_unresolved _ _ _ _ _ hfil hcol

/-- C6 witness data: the "title" field is mapped to a column name
absent from the table. -/
def wTpl6 : Template :=
  { templateKey := "zilo",
    fields := [⟨"sku", "SKU", "text", none⟩,
               ⟨"title", "Title", "text", none⟩],
    exportRules := ⟨"sku", ["sku"]⟩ }

def wMap6 : List (String × String) :=
  [("sku", "Variant SKU"), ("title", "No Such Column")]

/-- Witness for C6: the transform still succeeds, "Title" is in the
header, and the missing column emits the empty string. -/
theorem C6_missing_column_witness :
    get_col (prepTable wTbl []) "No Such Column" = none ∧
    "Title" ∈ outputHeaders wTpl6 (mappedOf wTpl6 wMap6) (autoOf wTpl6 wMap6) ∧
    mappedValue (prepTable wTbl []) (handleList (prepTable wTbl []))
      (mappedOf wTpl6 wMap6) ⟨"title", "No Such Column", "Title"⟩ 0 = "" := by
  refine ⟨by decide, ?_, ?_⟩
  · exact (C6_missing_column wTbl wTpl6 wMap6 [] ⟨"title", "No Such Column", "Title"⟩ 0
      (by decide) (by decide) (by decide)).2.1
  · exact (C6_missing_column wTbl wTpl6 wMap6 [] ⟨"title", "No Such Column", "Title"⟩ 0
      (by decide) (by decide) (by decide)).2.2

/-- C7: the transform core is a pure function of its four inputs, so
two runs on equal inputs stream byte-identical chunk sequences (BOM,
header line and row lines included). -/
theorem C7_deterministic (t0 t1 : Table) (tplA tplB : Template)
    (mapA mapB : List (String × String)) (clA clB : List String)
    (h1 : t0 = t1) (h2 : tplA = tplB) (h3 : mapA = mapB) (h4 : clA = clB) :
    transformChunks t0 tplA mapA clA = transformChunks t1 tplB mapB clB := by
  subst h1 h2 h3 h4
  rfl

/-- Witness for C7: two runs at the scenario input agree (and equal
the concrete chunk sequence). -/
theorem C7_deterministic_witness :
    transformChunks wTbl wTpl wMap [] = transformChunks wTbl wTpl wMap [] ∧
    transformChunks wTbl wTpl wMap [] =
      ["\uFEFF", "SKU,Image 1\r\n", "S1,http://x/1.jpg\r\n"] :=
  ⟨C7_deterministic wTbl wTbl wTpl wTpl wMap wMap [] [] rfl rfl rfl rfl, by decide⟩

/-- C8: the text normalizer pipeline (coerce, mojibake repair, entity
decoding, tag stripping, whitespace collapsing, in that fixed order)
sends the empty input to the empty string and cleans the scenario
input to the specified value. -/
theorem C8_clean_pipeline :
    clean_text_value "" = "" ∧
    clean_text_value "Caf&eacute;<br>Deluxe" = "Café Deluxe" :=
  ⟨by decide, by decide⟩

theorem getD_map_scrub (c : List String) (i : Nat) :
    (c.map scrubNan).getD i "" = scrubNan (c.getD i "") := by
  induction c generalizing i with
  | nil => simp [scrubNan]
  | cons x xs ih =>
    cases i with
    | zero => simp
    | succ n => simpa using ih n

theorem scrubNan_ne_nan (s : String) : scrubNan s ≠ "nan" := by
  unfold scrubNan
  by_cases h : s = "nan" <;> simp [h]

theorem exactCol_map_scrub (name : String) (cols : List (String × List String)) :
    exactCol name (cols.map (fun c => (c.1, c.2.map scrubNan))) =
      (exactCol name cols).map (fun c => (c.1, c.2.map scrubNan)) := by
  induction cols with
  | nil => rfl
  | cons c rest ih =>
    by_cases h : c.1 = name <;> simp [exactCol, h, ih]

theorem lastLower_map_scrub (lc : String) (cols : List (String × List String)) :
    lastLower lc (cols.map (fun c => (c.1, c.2.map scrubNan))) =
      (lastLower lc cols).map (fun c => (c.1, c.2.map scrubNan)) := by
  induction cols with
  | nil => rfl
  | cons c rest ih =>
    cases hr : lastLower lc rest with
    | some r => simp [lastLower, ih, hr]
    | none =>
      by_cases h : lowerStr c.1 = lc <;> simp [lastLower, ih, hr, h]

theorem get_col_normalize (t : Table) (name : String) :
    get_col (normalize_headers t) name = (get_col t name).map (fun c => c.map scrubNan) := by
  unfold get_col get_colPair normalize_headers
  simp only
  rw [exactCol_map_scrub]
  cases he : exactCol name t.cols with
  | some c => simp
  | none =>
    simp only [Option.map_none']
    rw [lastLower_map_scrub]
    cases hl : lastLower (lowerStr name) t.cols <;> simp

/-- C9 (amended): after parsing and before cleanup, indexing or
reshaping, `normalize_headers` scrubs exactly the cells reading
precisely "nan" to the empty string and leaves every other cell
unchanged (no type inference, no NA substitution), so no PARSED cell
equals "nan" when the pipeline starts; a downstream emitted value can
still equal "nan" when a surviving cell such as " nan" trims to it
(see the counterexample). -/
theorem C9_nan_scrub (t : Table) (name : String) :
    ((get_col (normalize_headers t) name).isSome = (get_col t name).isSome) ∧
    (∀ cn c, get_col (normalize_headers t) name = some cn → get_col t name = some c →
      ∀ i, cn.getD i "" = scrubNan (c.getD i "") ∧ cn.getD i "" ≠ "nan") := by
  have hg := get_col_normalize t name
  constructor
  · rw [hg]
    cases get_col t name <;> simp
  · intro cn c hcn hc i
    rw [hg, hc] at hcn
    simp only [Option.map_some', Option.some.injEq] at hcn
    subst hcn
    refine ⟨getD_map_scrub c i, ?_⟩
    rw [getD_map_scrub c i]
    exact scrubNan_ne_nan _

/-- C9 counterexample data: the required cell reads " nan" (leading
space), which is not exactly "nan" and so survives the scrub. -/
def wTbl9 : Table :=
  { cols := [("Handle", ["A"]), ("Variant SKU", [" nan"])], nrows := 1 }

def wTpl9 : Template :=
  { templateKey := "zilo",
    fields := [⟨"sku", "SKU", "text", none⟩],
    exportRules := ⟨"sku", []⟩ }

def wMap9 : List (String × String) := [("sku", "Variant SKU")]

/-- C9 counterexample: the claim's parenthetical "no emitted value
ever equals nan" fails — the surviving cell " nan" trims to exactly
"nan" in the emitted row. -/
theorem C9_nan_scrub_counterexample :
    transform wTbl9 wTpl9 wMap9 [] = .ok (["SKU"], [["nan"]]) := by decide

/-- C9 witness data: a table with a cell reading exactly "nan". -/
def wTbl9w : Table :=
  { cols := [("X", ["nan", "x"])], nrows := 2 }

/-- Witness for C9 (amended): the exact-"nan" cell is scrubbed, the
other cell is untouched, and no normalized cell reads "nan". -/
theorem C9_nan_scrub_witness :
    get_col (normalize_headers wTbl9w) "X" = some ["", "x"] ∧
    (["", "x"].getD 0 "" = scrubNan (["nan", "x"].getD 0 "") ∧
      ["", "x"].getD 0 "" ≠ "nan") ∧
    (["", "x"].getD 1 "" = scrubNan (["nan", "x"].getD 1 "") ∧
      ["", "x"].getD 1 "" ≠ "nan") :=
  ⟨by decide,
   (C9_nan_scrub wTbl9w "X").2 ["", "x"] ["nan", "x"] (by decide) (by decide) 0,
   (C9_nan_scrub wTbl9w "X").2 ["", "x"] ["nan", "x"] (by decide) (by decide) 1⟩

/-- C10: variant-level classification is a case-sensitive exact test
while column resolution is case-insensitive: a mapped field whose
source name is not literally in `VARIANT_LEVEL_SHOPIFY_HEADERS` but
case-insensitively matches a variant-level column still resolves to
that column, yet is treated as product-level, so its emitted value is
the first-wins per-handle aggregate rather than the per-row value. -/
theorem C10_case_sensitivity (t : Table) (mapped : List MappedField) (mi : MappedField)
    (vname : String) (col : List String) (idx : Nat)
    (hfil : mapped.filter (fun x => decide (x.key = mi.key)) = [mi])
    (hnv : mi.src ∉ VARIANT_LEVEL_SHOPIFY_HEADERS)
    (_hvar : vname ∈ VARIANT_LEVEL_SHOPIFY_HEADERS)
    (_hlc : lowerStr vname = lowerStr mi.src)
    (hexact : exactCol mi.src t.cols = none)
    (hlast : lastLower (lowerStr mi.src) t.cols = some (vname, col)) :
    get_col t mi.src = some col ∧
    mappedValue t (handleList t) mapped mi idx =
      (specFirstNonBlank ((handleList t).getD idx "")
        (pairsOf (handleList t) col)).getD (strip (col.getD idx "")) := by
  have hcol : get_col t mi.src = some col := by
    simp [get_col, get_colPair, hexact, hlast]
  exact ⟨hcol, mappedValue_product t (handleList t) mapped mi col idx hfil hnv hcol⟩

/-- C10 witness data: the mapping names the source column in
lowercase, "variant sku". -/
def wTbl10 : Table :=
  { cols := [("Handle", ["A", "A"]), ("Variant SKU", ["S1", "S2"])], nrows := 2 }

def wMapped10 : List MappedField := [⟨"sku", "variant sku", "SKU"⟩]

def wMi10 : MappedField := ⟨"sku", "variant sku", "SKU"⟩

/-- Witness for C10: "variant sku" resolves to the "Variant SKU"
column, yet at row 1 the emitted value is the aggregated "S1", not the
per-row "S2". -/
theorem C10_case_sensitivity_witness :
    get_col wTbl10 wMi10.src = some ["S1", "S2"] ∧
    mappedValue wTbl10 (handleList wTbl10) wMapped10 wMi10 1 = "S1" :=
  ⟨(C10_case_sensitivity wTbl10 wMapped10 wMi10 "Variant SKU" ["S1", "S2"] 1
      (by decide) (by decide) (by decide) (by decide) (by decide) (by decide)).1,
   Eq.trans
     ((C10_case_sensitivity wTbl10 wMapped10 wMi10 "Variant SKU" ["S1", "S2"] 1
        (by decide) (by decide) (by decide) (by decide) (by decide) (by decide)).2)
     (by decide)⟩

end CatalogBuddy
